import Mathlib

/-!
# selection: upload, annotate and view images

A shallow embedding of `main.go`.

* A Go `string` / `[]byte` is a list of bytes, each byte a natural number
  (`GoString`).  `ascii` turns a Lean string literal of ASCII characters into
  such a list.
* A Go `int` is 64 bits wide: an `Int` kept in `[-2^63, 2^63)` by `wrapInt`.
* The calls into the Go standard library (`crypto/sha1`, `fmt.Sprintf("%x", ..)`,
  `strings.Split`, `strconv.Atoi`, `encoding/json`, `ioutil.WriteFile`) are
  embedded from the behaviour of these packages; the diskv store from its
  contract in the specification.
* A handler is a function from the store and the request to what it does with
  its response writer, the store afterwards and, for the annotation store, the
  accesses it made.  `main` registers `Annotate` on the pattern `/annotate/`
  and `ViewImage` on `/view/`, so the path of a request that reaches them
  starts with that pattern.
* `log.Printf` / `log.Println` write to the process log only and are left out.
-/

set_option maxRecDepth 100000

namespace Selection

/-- A Go string or byte slice: the list of its bytes. -/
abbrev GoString := List Nat

/-- The bytes of an ASCII string literal. -/
def ascii (s : String) : GoString := s.toList.map Char.toNat

/-! ## crypto/sha1 (FIPS 180-1) -/

/-- Reduction of a natural number to a 32-bit word. -/
def w32 (x : Nat) : Nat := x % 4294967296

/-- Rotate the 32-bit word `x` left by `n` bits (`bits.RotateLeft32`). -/
def rotl (n x : Nat) : Nat := w32 ((x <<< n) ||| (x >>> (32 - n)))

/-- Bitwise complement of a 32-bit word. -/
def not32 (x : Nat) : Nat := 4294967295 - w32 x

/-- The big-endian bytes of a 64-bit number. -/
def be64 (x : Nat) : List Nat :=
  [x / 72057594037927936 % 256, x / 281474976710656 % 256, x / 1099511627776 % 256,
   x / 4294967296 % 256, x / 16777216 % 256, x / 65536 % 256, x / 256 % 256, x % 256]

/-- The big-endian bytes of a 32-bit word. -/
def be32 (x : Nat) : List Nat :=
  [x / 16777216 % 256, x / 65536 % 256, x / 256 % 256, x % 256]

/-- The message padded to a multiple of 64 bytes: a `0x80` byte, zero bytes up
to 56 modulo 64, then the bit length as a big-endian 64-bit number. -/
def sha1Pad (msg : List Nat) : List Nat :=
  msg ++ 128 :: List.replicate ((119 - msg.length % 64) % 64) 0
    ++ be64 (msg.length * 8 % 18446744073709551616)

/-- The big-endian 32-bit words of a byte list, four bytes per word. -/
def beWords : List Nat → List Nat
  | a :: b :: c :: d :: rest =>
    (a % 256 * 16777216 + b % 256 * 65536 + c % 256 * 256 + d % 256) :: beWords rest
  | _ => []

/-- The message schedule: `n` further words appended to `w`, each the rotation
by one of the xor of the words 3, 8, 14 and 16 places back. -/
def sha1Extend : Nat → List Nat → List Nat
  | 0, w => w
  | n + 1, w =>
    let i := w.length
    sha1Extend n (w ++ [rotl 1 (w.getD (i - 3) 0 ^^^ w.getD (i - 8) 0
      ^^^ w.getD (i - 14) 0 ^^^ w.getD (i - 16) 0)])

/-- The five 32-bit chaining words of SHA-1. -/
structure Sha1State where
  h0 : Nat
  h1 : Nat
  h2 : Nat
  h3 : Nat
  h4 : Nat
deriving DecidableEq, Repr

/-- The round function and constant of round `i`. -/
def sha1F (i b c d : Nat) : Nat × Nat :=
  if i < 20 then ((b &&& c) ||| (not32 b &&& d), 1518500249)
  else if i < 40 then (b ^^^ c ^^^ d, 1859775393)
  else if i < 60 then ((b &&& c) ||| (b &&& d) ||| (c &&& d), 2400959708)
  else (b ^^^ c ^^^ d, 3395469782)

/-- One round of the compression function on the working variables. -/
def sha1Round (w : List Nat) (s : Sha1State) (i : Nat) : Sha1State :=
  let fk := sha1F i s.h1 s.h2 s.h3
  { h0 := w32 (rotl 5 s.h0 + fk.1 + s.h4 + fk.2 + w.getD i 0)
    h1 := s.h0
    h2 := rotl 30 s.h1
    h3 := s.h2
    h4 := s.h3 }

/-- Rounds `i`, `i+1`, ... (`n` of them) of the compression function. -/
def sha1Rounds (w : List Nat) : Nat → Nat → Sha1State → Sha1State
  | 0, _, s => s
  | n + 1, i, s => sha1Rounds w n (i + 1) (sha1Round w s i)

/-- The compression of one 64-byte block into the chaining state. -/
def sha1Block (s : Sha1State) (block : List Nat) : Sha1State :=
  let w := sha1Extend 64 (beWords block)
  let t := sha1Rounds w 80 0 s
  { h0 := w32 (s.h0 + t.h0)
    h1 := w32 (s.h1 + t.h1)
    h2 := w32 (s.h2 + t.h2)
    h3 := w32 (s.h3 + t.h3)
    h4 := w32 (s.h4 + t.h4) }

/-- The compression of `n` consecutive 64-byte blocks of `data`. -/
def sha1Blocks : Nat → List Nat → Sha1State → Sha1State
  | 0, _, s => s
  | n + 1, data, s => sha1Blocks n (data.drop 64) (sha1Block s (data.take 64))

/-- The initial chaining state. -/
def sha1Init : Sha1State :=
  { h0 := 1732584193, h1 := 4023233417, h2 := 2562383102, h3 := 271733878, h4 := 3285377520 }

/-- The 20-byte SHA-1 digest of `msg`: `sha1.New()`, `Write(msg)`, `Sum(nil)`. -/
def sha1Sum (msg : List Nat) : List Nat :=
  let p := sha1Pad msg
  let s := sha1Blocks (p.length / 64) p sha1Init
  be32 s.h0 ++ be32 s.h1 ++ be32 s.h2 ++ be32 s.h3 ++ be32 s.h4

/-! ## fmt.Sprintf("%x", s) -/

/-- The lowercase hexadecimal digit (as a byte) of a value below 16. -/
def hexDigit (n : Nat) : Nat := if n < 10 then 48 + n else 87 + n

/-- The verb `%x` applied to a string: two lowercase hexadecimal digits per byte. -/
def sprintfHex : GoString → GoString
  | [] => []
  | b :: rest => hexDigit (b / 16 % 16) :: hexDigit (b % 16) :: sprintfHex rest

/-- The source's `fileSHA`: the hexadecimal form of the first 8 bytes of the
SHA-1 digest of `data`. -/
def fileSHA (data : List Nat) : GoString :=
  sprintfHex ((sha1Sum data).take 8)

/-! ## strings.Split and strconv.Atoi -/

/-- The call `strings.Split(s, sep)` for a separator `sep` of one byte: the
fields of `s` between the occurrences of `sep`; one field, `s` itself, when
`sep` does not occur (also for the empty string). -/
def Split (s : GoString) (sep : Nat) : List GoString :=
  match s with
  | [] => [[]]
  | c :: cs =>
    if c = sep then [] :: Split cs sep
    else
      match Split cs sep with
      | [] => [[c]]
      | f :: fs => (c :: f) :: fs

/-- The two errors of package strconv. -/
inductive NumError where
  | ErrSyntax
  | ErrRange
deriving DecidableEq, Repr

/-- The largest `uint64`. -/
def maxUint64 : Nat := 18446744073709551615

/-- The value of a byte as a digit in some base up to 36, if it is a digit or
a letter. -/
def digitVal (c : Nat) : Option Nat :=
  if 48 ≤ c ∧ c ≤ 57 then some (c - 48)
  else if 97 ≤ c ∧ c ≤ 122 then some (c - 97 + 10)
  else if 65 ≤ c ∧ c ≤ 90 then some (c - 65 + 10)
  else none

/-- The digit loop of `strconv.ParseUint(s, base, 64)` from the accumulated
value `n`: a byte that is no digit of the base is a syntax error with value 0,
an overflow is a range error with the largest value. -/
def parseUintLoop (base : Nat) : GoString → Nat → Nat × Option NumError
  | [], n => (n, none)
  | c :: rest, n =>
    match digitVal c with
    | none => (0, some NumError.ErrSyntax)
    | some v =>
      if v ≥ base then (0, some NumError.ErrSyntax)
      else if n ≥ maxUint64 / base + 1 then (maxUint64, some NumError.ErrRange)
      else
        let n1 := n * base + v
        if n1 > maxUint64 then (maxUint64, some NumError.ErrRange)
        else parseUintLoop base rest n1

/-- The call `strconv.ParseUint(s, base, 64)`. -/
def ParseUint (s : GoString) (base : Nat) : Nat × Option NumError :=
  if s.length < 1 then (0, some NumError.ErrSyntax) else parseUintLoop base s 0

/-- The call `strconv.ParseInt(s, base, 64)`: an optional sign, then
`ParseUint`; a syntax error gives 0, a value out of range gives the nearest
bound with a range error. -/
def ParseInt (s : GoString) (base : Nat) : Int × Option NumError :=
  match s with
  | [] => (0, some NumError.ErrSyntax)
  | c :: rest =>
    let neg := c = 45
    let body := if c = 43 ∨ c = 45 then rest else s
    let r := ParseUint body base
    if r.2 = some NumError.ErrSyntax then (0, some NumError.ErrSyntax)
    else
      let cutoff : Nat := 9223372036854775808
      if ¬ neg ∧ r.1 ≥ cutoff then (((cutoff - 1 : Nat) : Int), some NumError.ErrRange)
      else if neg ∧ r.1 > cutoff then (-(cutoff : Int), some NumError.ErrRange)
      else (if neg then -(r.1 : Int) else (r.1 : Int), none)

/-- The call `strconv.Atoi(s)` on a platform whose `int` has 64 bits:
`ParseInt(s, 10, 0)` converted to `int`.  (The shortcut that later releases take
for short inputs returns the same value and error.) -/
def Atoi (s : GoString) : Int × Option NumError := ParseInt s 10

/-- A 64-bit `int`: the representative of `z` in `[-2^63, 2^63)`. -/
def wrapInt (z : Int) : Int :=
  (z + 9223372036854775808) % 18446744073709551616 - 9223372036854775808

/-! ## encoding/json for `[]string` -/

/-- The length (2, 3 or 4) of the well-formed multi-byte UTF-8 encoding at the
head of `s`, if there is one (`utf8.DecodeRune` not returning `RuneError, 1`). -/
def utf8Size (s : GoString) : Option Nat :=
  let cont := fun (b : Nat) => 128 ≤ b ∧ b ≤ 191
  match s with
  | b0 :: b1 :: rest =>
    if 194 ≤ b0 ∧ b0 ≤ 223 then (if cont b1 then some 2 else none)
    else if 224 ≤ b0 ∧ b0 ≤ 239 then
      match rest with
      | b2 :: _ =>
        let lo := if b0 = 224 then 160 else 128
        let hi := if b0 = 237 then 159 else 191
        if lo ≤ b1 ∧ b1 ≤ hi ∧ cont b2 then some 3 else none
      | [] => none
    else if 240 ≤ b0 ∧ b0 ≤ 244 then
      match rest with
      | b2 :: b3 :: _ =>
        let lo := if b0 = 240 then 144 else 128
        let hi := if b0 = 244 then 143 else 191
        if lo ≤ b1 ∧ b1 ≤ hi ∧ cont b2 ∧ cont b3 then some 4 else none
      | _ => none
    else none
  | _ => none

/-- The UTF-8 encoding of a rune (`utf8.EncodeRune`); a surrogate or a value
above U+10FFFF is encoded as U+FFFD. -/
def encodeRune (r : Nat) : GoString :=
  if r < 128 then [r]
  else if r < 2048 then [192 + r / 64, 128 + r % 64]
  else if (55296 ≤ r ∧ r < 57344) ∨ r > 1114111 then [239, 191, 189]
  else if r < 65536 then [224 + r / 4096, 128 + r / 64 % 64, 128 + r % 64]
  else [240 + r / 262144, 128 + r / 4096 % 64, 128 + r / 64 % 64, 128 + r % 64]

/-- The bytes that `json.Marshal` copies unchanged into a string literal: the
ASCII characters from the space on, except the quote, the backslash and the
characters `<`, `>`, `&`. -/
def htmlSafe (b : Nat) : Bool :=
  decide (32 ≤ b ∧ b < 128 ∧ b ≠ 34 ∧ b ≠ 92 ∧ b ≠ 60 ∧ b ≠ 62 ∧ b ≠ 38)

/-- The body of a JSON string literal for the Go string `s`, as `json.Marshal`
writes it.  `k` is the number of bytes of the multi-byte character at hand that
are still to come: they are copied when `keep` is set and dropped otherwise
(the character has been written as an escape). -/
def quoteBody (keep : Bool) : Nat → GoString → GoString
  | _, [] => []
  | k + 1, c :: rest => if keep then c :: quoteBody keep k rest else quoteBody keep k rest
  | 0, c :: rest =>
    if c < 128 then
      if htmlSafe c then c :: quoteBody keep 0 rest
      else if c = 92 ∨ c = 34 then 92 :: c :: quoteBody keep 0 rest
      else if c = 8 then 92 :: 98 :: quoteBody keep 0 rest
      else if c = 12 then 92 :: 102 :: quoteBody keep 0 rest
      else if c = 10 then 92 :: 110 :: quoteBody keep 0 rest
      else if c = 13 then 92 :: 114 :: quoteBody keep 0 rest
      else if c = 9 then 92 :: 116 :: quoteBody keep 0 rest
      else 92 :: 117 :: 48 :: 48 :: hexDigit (c / 16) :: hexDigit (c % 16) :: quoteBody keep 0 rest
    else
      match utf8Size (c :: rest) with
      | none => 92 :: 117 :: 102 :: 102 :: 102 :: 100 :: quoteBody keep 0 rest
      | some n =>
        if c = 226 ∧ rest.take 2 = [128, 168] then
          92 :: 117 :: 50 :: 48 :: 50 :: 56 :: quoteBody false 2 rest
        else if c = 226 ∧ rest.take 2 = [128, 169] then
          92 :: 117 :: 50 :: 48 :: 50 :: 57 :: quoteBody false 2 rest
        else c :: quoteBody true (n - 1) rest

/-- A Go string as a JSON string literal. -/
def quote (s : GoString) : GoString := 34 :: quoteBody true 0 s ++ [34]

/-- The elements of a JSON array, separated by commas. -/
def marshalElems : List GoString → GoString
  | [] => []
  | [p] => quote p
  | p :: q :: ps => quote p ++ 44 :: marshalElems (q :: ps)

/-- The call `json.Marshal(picks)` for a non-nil `[]string`.  It cannot fail:
invalid UTF-8 is replaced, not reported. -/
def jsonMarshal (picks : List GoString) : Except String GoString :=
  Except.ok (91 :: marshalElems picks ++ [93])

/-- The tokens of the JSON texts that decode into a `[]string`. -/
inductive Token where
  | arrOpen
  | arrClose
  | comma
  | null
  | str (raw : GoString)
deriving DecidableEq, Repr

/-- Where the scanner is: between tokens, inside a string literal, after a
backslash, or inside the four hexadecimal digits of a `\u` escape (`k` more to
come); the bytes of the literal read so far are carried along. -/
inductive ScanMode where
  | outside
  | inString (raw : GoString)
  | inEsc (raw : GoString)
  | inHex (raw : GoString) (k : Nat)
deriving DecidableEq, Repr

/-- The JSON whitespace bytes. -/
def isSpace (c : Nat) : Bool := decide (c = 32 ∨ c = 9 ∨ c = 13 ∨ c = 10)

/-- The value of a hexadecimal digit. -/
def hexVal (c : Nat) : Option Nat :=
  if 48 ≤ c ∧ c ≤ 57 then some (c - 48)
  else if 97 ≤ c ∧ c ≤ 102 then some (c - 87)
  else if 65 ≤ c ∧ c ≤ 70 then some (c - 55)
  else none

/-- The scanner of package json restricted to what a `[]string` accepts: it
splits the text into brackets, commas, `null` and string literals (kept raw,
without the quotes), skipping whitespace, and fails at a byte no such text has
there: a control character inside a literal, an unknown escape, a number, an
object, `true`, `false`. -/
def scan : ScanMode → GoString → Option (List Token)
  | ScanMode.outside, [] => some []
  | ScanMode.outside, c :: rest =>
    if isSpace c then scan ScanMode.outside rest
    else if c = 91 then (scan ScanMode.outside rest).map (fun ts => Token.arrOpen :: ts)
    else if c = 93 then (scan ScanMode.outside rest).map (fun ts => Token.arrClose :: ts)
    else if c = 44 then (scan ScanMode.outside rest).map (fun ts => Token.comma :: ts)
    else if c = 34 then scan (ScanMode.inString []) rest
    else if c = 110 then
      match rest with
      | u :: l1 :: l2 :: rest2 =>
        if u = 117 ∧ l1 = 108 ∧ l2 = 108 then
          (scan ScanMode.outside rest2).map (fun ts => Token.null :: ts)
        else none
      | _ => none
    else none
  | ScanMode.inString _, [] => none
  | ScanMode.inString raw, c :: rest =>
    if c = 34 then (scan ScanMode.outside rest).map (fun ts => Token.str raw :: ts)
    else if c = 92 then scan (ScanMode.inEsc (raw ++ [c])) rest
    else if c < 32 then none
    else scan (ScanMode.inString (raw ++ [c])) rest
  | ScanMode.inEsc _, [] => none
  | ScanMode.inEsc raw, c :: rest =>
    if c = 98 ∨ c = 102 ∨ c = 110 ∨ c = 114 ∨ c = 116 ∨ c = 92 ∨ c = 47 ∨ c = 34 then
      scan (ScanMode.inString (raw ++ [c])) rest
    else if c = 117 then scan (ScanMode.inHex (raw ++ [c]) 4) rest
    else none
  | ScanMode.inHex _ _, [] => none
  | ScanMode.inHex raw k, c :: rest =>
    match hexVal c with
    | none => none
    | some _ =>
      if k ≤ 1 then scan (ScanMode.inString (raw ++ [c])) rest
      else scan (ScanMode.inHex (raw ++ [c]) (k - 1)) rest

/-- The rune of the four hexadecimal digits of a `\u` escape. -/
def getu4 (a b c d : Nat) : Option Nat :=
  match hexVal a, hexVal b, hexVal c, hexVal d with
  | some x, some y, some z, some w => some (x * 4096 + y * 256 + z * 16 + w)
  | _, _, _, _ => none

/-- The low surrogate escape `\uXXXX` at the head of `s`, if there is one. -/
def lowSurrogate (s : GoString) : Option Nat :=
  match s with
  | bs :: u :: a :: b :: c :: d :: _ =>
    if bs = 92 ∧ u = 117 then
      match getu4 a b c d with
      | some r => if 56320 ≤ r ∧ r < 57344 then some r else none
      | none => none
    else none
  | _ => none

/-- The Go string of a raw string literal (`unquote`): escapes are resolved,
a surrogate pair of `\u` escapes becomes one rune, a lone surrogate and every
byte that is not part of well-formed UTF-8 become U+FFFD.  `k` is the number
of bytes at hand that belong to what has been decoded already: the rest of a
multi-byte character, copied when `keep` is set, or the second escape of a
surrogate pair, dropped. -/
def unquote (keep : Bool) : Nat → GoString → Option GoString
  | _, [] => some []
  | k + 1, c :: rest =>
    if keep then (unquote keep k rest).map (fun t => c :: t) else unquote keep k rest
  | 0, c :: rest =>
    if c = 92 then
      match rest with
      | [] => none
      | e :: rest1 =>
        if e = 34 ∨ e = 92 ∨ e = 47 then (unquote keep 0 rest1).map (fun t => e :: t)
        else if e = 98 then (unquote keep 0 rest1).map (fun t => 8 :: t)
        else if e = 102 then (unquote keep 0 rest1).map (fun t => 12 :: t)
        else if e = 110 then (unquote keep 0 rest1).map (fun t => 10 :: t)
        else if e = 114 then (unquote keep 0 rest1).map (fun t => 13 :: t)
        else if e = 116 then (unquote keep 0 rest1).map (fun t => 9 :: t)
        else if e = 117 then
          match rest1 with
          | a :: b :: c1 :: d :: rest2 =>
            match getu4 a b c1 d with
            | none => none
            | some rr =>
              if 55296 ≤ rr ∧ rr < 57344 then
                match lowSurrogate rest2 with
                | some rr1 =>
                  if rr < 56320 then
                    (unquote false 6 rest2).map (fun t =>
                      encodeRune ((rr - 55296) * 1024 + (rr1 - 56320) + 65536) ++ t)
                  else (unquote keep 0 rest2).map (fun t => encodeRune 65533 ++ t)
                | none => (unquote keep 0 rest2).map (fun t => encodeRune 65533 ++ t)
              else (unquote keep 0 rest2).map (fun t => encodeRune rr ++ t)
          | _ => none
        else none
    else if c = 34 ∨ c < 32 then none
    else if c < 128 then (unquote keep 0 rest).map (fun t => c :: t)
    else
      match utf8Size (c :: rest) with
      | none => (unquote keep 0 rest).map (fun t => encodeRune 65533 ++ t)
      | some n => (unquote true (n - 1) rest).map (fun t => c :: t)

/-- The Go string an array element decodes to: a string literal is unquoted,
`null` leaves the element at its zero value, the empty string. -/
def tokenValue : Token → Option GoString
  | Token.str raw => unquote true 0 raw
  | Token.null => some []
  | _ => none

/-- The elements of an array after the opening bracket: values separated by
commas up to the closing bracket, which ends the text. -/
def parseElems : List Token → Option (List GoString)
  | [] => none
  | [_] => none
  | v :: t :: rest =>
    match tokenValue v with
    | none => none
    | some e =>
      if t = Token.arrClose then (if rest = [] then some [e] else none)
      else if t = Token.comma then (parseElems rest).map (fun es => e :: es)
      else none

/-- The call `json.Unmarshal(data, &picks)` for `picks []string`; `none` is a
non-nil error.  No error is returned exactly for the text `null` (no picks) and
for an array whose elements are string literals or `null`; every other text is
either no JSON (syntax error) or JSON of another shape (type error). -/
def jsonUnmarshal (data : GoString) : Option (List GoString) :=
  match scan ScanMode.outside data with
  | none => none
  | some [Token.null] => some []
  | some [Token.arrOpen, Token.arrClose] => some []
  | some (Token.arrOpen :: ts) => parseElems ts
  | some _ => none

/-! ## The annotation store (diskv) and the image directory -/

/-- Modelled from the spec: the diskv library (github.com/peterbourgon/diskv)
is not part of the repository.  The store under `data/` with the flat
transform keeps one file per key: `files` gives the content of the file of a
key, `writable` says for which keys the file system lets the file be created
or overwritten; a write does not change it. -/
structure Diskv where
  files : GoString → Option GoString
  writable : GoString → Bool

/-- An access to the annotation store. -/
inductive DbOp where
  | read (key : GoString)
  | write (key : GoString) (val : GoString)
deriving DecidableEq, Repr

/-- Modelled from the spec: the call `db.Read(key)` of the diskv library, the
content of the file of the key, or an error (`none`) when there is none. -/
def Diskv.Read (db : Diskv) (key : GoString) : Option GoString := db.files key

/-- Modelled from the spec: the call `db.Write(key, val)` of the diskv library.
The file of the key is replaced as a whole by `val`; an error (`none`) for the
empty key and when the file cannot be written. -/
def Diskv.Write (db : Diskv) (key : GoString) (val : GoString) : Option Diskv :=
  if key.length = 0 then none
  else if db.writable key then
    some { db with files := fun k => if k = key then some val else db.files k }
  else none

/-- The directory `images/`: the content of each file in it, and for which
names the file system lets a file be created or overwritten. -/
structure ImageDir where
  files : GoString → Option GoString
  writable : GoString → Bool

/-- The call `ioutil.WriteFile("images/"+name, data, 0777)`: the file is created
or truncated and `data` written to it; `none` is an error. -/
def ImageDir.WriteFile (d : ImageDir) (name : GoString) (data : GoString) :
    Option ImageDir :=
  if d.writable name then
    some { d with files := fun k => if k = name then some data else d.files k }
  else none

/-! ## Requests and responses -/

/-- What `req.FormFile("image")` followed by `ioutil.ReadAll` yields. -/
inductive Upload where
  | missing
  | unreadable
  | content (data : GoString)
deriving DecidableEq, Repr

/-- The parts of a request the handlers look at: the method, the path of the
URL, the result of `req.ParseForm()` (`none` is an error, otherwise
`req.PostForm`, the values of each field) and the uploaded file. -/
structure Request where
  Method : GoString
  Path : GoString
  PostForm : Option (List (GoString × List GoString))
  File : Upload
deriving DecidableEq, Repr

/-- The local type `Coordinate` of `ViewImage`. -/
structure Coordinate where
  X : Int
  Y : Int
deriving DecidableEq, Repr

/-- The local type `Data` of `ViewImage`, the model of the view template. -/
structure Data where
  Image : GoString
  Coordinates : List Coordinate
  Annotated : Bool
deriving DecidableEq, Repr

/-- What a handler does to its response writer: `http.Error(w, msg, code)`,
`http.Redirect(w, req, url, code)`, the execution of one of the three
templates on its model, a fixed text, nothing at all, or a run-time panic
before anything is written. -/
inductive Response where
  | error (msg : String) (code : Nat)
  | redirect (url : GoString) (code : Nat)
  | newImagePage
  | annotatePage (Image : GoString)
  | viewPage (data : Data)
  | text (body : String)
  | nothing
  | panic
deriving DecidableEq, Repr

/-- The result of a handler on the annotation store: the response, the store
afterwards and the accesses made to it, in order. -/
structure Outcome where
  resp : Response
  db : Diskv
  ops : List DbOp

/-- The slice expression `s[n:]`, which panics (`none`) when `n > len(s)`. -/
def sliceFrom (s : GoString) (n : Nat) : Option GoString :=
  if n ≤ s.length then some (s.drop n) else none

/-- The map index expression `form[key]` with its `ok` flag. -/
def formValues (form : List (GoString × List GoString)) (key : GoString) :
    Option (List GoString) :=
  match form with
  | [] => none
  | (k, v) :: rest => if k = key then some v else formValues rest key

/-! ## The handlers -/

/-- The source's `NewImage`. -/
def NewImage (_req : Request) : Response := Response.newImagePage

/-- The source's `PostImage` on the image directory. -/
def PostImage (dir : ImageDir) (req : Request) : Response × ImageDir :=
  match req.File with
  | Upload.missing => (Response.error "Sorry, something broke!" 500, dir)
  | Upload.unreadable => (Response.error "Sorry, something broke!" 500, dir)
  | Upload.content data =>
    let sha := fileSHA data
    match dir.WriteFile sha data with
    | none => (Response.error "Sorry, something broke!" 500, dir)
    | some dir1 => (Response.redirect (ascii "/view/" ++ sha) 303, dir1)

/-- The source's `Annotate`. -/
def Annotate (db : Diskv) (req : Request) : Outcome :=
  match sliceFrom req.Path (ascii "/annotate/").length with
  | none => ⟨Response.panic, db, []⟩
  | some image =>
    if image.length = 0 then ⟨Response.error "No image specified!" 400, db, []⟩
    else if req.Method = ascii "GET" then
      match db.Read image with
      | some _ => ⟨Response.redirect (ascii "/view/" ++ image) 303, db, [DbOp.read image]⟩
      | none => ⟨Response.annotatePage image, db, [DbOp.read image]⟩
    else if req.Method = ascii "POST" then
      match req.PostForm with
      | none => ⟨Response.error "Bad form!" 400, db, []⟩
      | some form =>
        match formValues form (ascii "pick") with
        | none => ⟨Response.error "Bad form!" 400, db, []⟩
        | some picks =>
          match jsonMarshal picks with
          | Except.error _ => ⟨Response.error "Sorry, something broke!" 400, db, []⟩
          | Except.ok encoded =>
            match db.Write image encoded with
            | none =>
              ⟨Response.error "Sorry, something broke!" 500, db, [DbOp.write image encoded]⟩
            | some db1 =>
              ⟨Response.redirect (ascii "/view/" ++ image) 303, db1,
                [DbOp.write image encoded]⟩
    else ⟨Response.nothing, db, []⟩

/-- The body of the loop of `ViewImage` for the pick `p`: the first two fields
between commas, each parsed with the error dropped and reduced by 50; a panic
(`none`) when an index is out of range. -/
def pickCoordinate (p : GoString) : Option Coordinate :=
  let s := Split p 44
  match s.get? 0 with
  | none => none
  | some s0 =>
    let x := wrapInt ((Atoi s0).1 - 50)
    match s.get? 1 with
    | none => none
    | some s1 =>
      let y := wrapInt ((Atoi s1).1 - 50)
      some { X := x, Y := y }

/-- The loop of `ViewImage` over the picks, appending to `coords`. -/
def viewLoop : List GoString → List Coordinate → Option (List Coordinate)
  | [], coords => some coords
  | p :: ps, coords =>
    match pickCoordinate p with
    | none => none
    | some c => viewLoop ps (coords ++ [c])

/-- The source's `ViewImage`. -/
def ViewImage (db : Diskv) (req : Request) : Outcome :=
  match sliceFrom req.Path (ascii "/view/").length with
  | none => ⟨Response.panic, db, []⟩
  | some image =>
    if image.length = 0 then ⟨Response.error "No image specified!" 400, db, []⟩
    else
      let data : Data := { Image := image, Coordinates := [], Annotated := false }
      match db.Read image with
      | some read =>
        match jsonUnmarshal read with
        | none => ⟨Response.error "Sorry, something broke!" 500, db, [DbOp.read image]⟩
        | some picks =>
          match viewLoop picks data.Coordinates with
          | none => ⟨Response.panic, db, [DbOp.read image]⟩
          | some coords =>
            ⟨Response.viewPage { data with Coordinates := coords, Annotated := true }, db,
              [DbOp.read image]⟩
      | none => ⟨Response.viewPage data, db, [DbOp.read image]⟩

/-- The source's `Hello`. -/
def Hello (_req : Request) : Response := Response.text "Hi, you found selector"

/-! ## Notions of the specification -/

/-- A lowercase hexadecimal character: `0`..`9` or `a`..`f`. -/
def isLowerHex (c : Nat) : Bool := decide ((48 ≤ c ∧ c ≤ 57) ∨ (97 ≤ c ∧ c ≤ 102))

/-- The value of a run of decimal digits read after the value `n`, if every
byte is a digit. -/
def digitsValue : GoString → Nat → Option Nat
  | [], n => some n
  | c :: rest, n => if 48 ≤ c ∧ c ≤ 57 then digitsValue rest (n * 10 + (c - 48)) else none

/-- The integer that a string denotes in decimal: an optional sign `+` or `-`
and at least one digit; `none` for any other string. -/
def decimalValue (s : GoString) : Option Int :=
  match s with
  | [] => none
  | c :: rest =>
    if c = 45 then
      (if rest = [] then none else (digitsValue rest 0).map (fun (n : Nat) => -(n : Int)))
    else if c = 43 then
      (if rest = [] then none else (digitsValue rest 0).map (fun (n : Nat) => (n : Int)))
    else (digitsValue s 0).map (fun (n : Nat) => (n : Int))

/-- The pick `p` is `x,y`: a decimal form of the integer `x`, a comma, a
decimal form of the integer `y`. -/
def IsPick (p : GoString) (x y : Int) : Prop :=
  ∃ sx sy, p = sx ++ 44 :: sy ∧ decimalValue sx = some x ∧ decimalValue sy = some y

/-- The integers `v` for which both `v` and `v - 50` are values of a 64-bit `int`. -/
def InIntRange (v : Int) : Prop := -9223372036854775758 ≤ v ∧ v ≤ 9223372036854775807

instance (v : Int) : Decidable (InIntRange v) := by
  unfold InIntRange
  infer_instance

/-! ## Lemmas on the handlers -/

theorem sliceFrom_append (a b : GoString) : sliceFrom (a ++ b) a.length = some b := by
  simp [sliceFrom]

theorem annotate_image (image : GoString) :
    sliceFrom (ascii "/annotate/" ++ image) (ascii "/annotate/").length = some image :=
  sliceFrom_append _ _

theorem view_image (image : GoString) :
    sliceFrom (ascii "/view/" ++ image) (ascii "/view/").length = some image :=
  sliceFrom_append _ _

theorem length_ne_zero_of_ne_nil {image : GoString} (h : image ≠ []) : image.length ≠ 0 := by
  simpa using h

theorem get_ne_post : ascii "POST" ≠ ascii "GET" := by decide

/-- The handler `Annotate` on a GET request for a non-empty image. -/
theorem annotate_get (db : Diskv) (image : GoString) (h : image ≠ [])
    (form : Option (List (GoString × List GoString))) (file : Upload) :
    Annotate db (Request.mk (ascii "GET") (ascii "/annotate/" ++ image) form file) =
      match db.Read image with
      | some _ => ⟨Response.redirect (ascii "/view/" ++ image) 303, db, [DbOp.read image]⟩
      | none => ⟨Response.annotatePage image, db, [DbOp.read image]⟩ := by
  simp only [Annotate, annotate_image, length_ne_zero_of_ne_nil h, if_false, if_true]

/-- The handler `Annotate` on a POST request for a non-empty image whose form
has the field `pick`. -/
theorem annotate_post (db : Diskv) (image : GoString) (h : image ≠ [])
    (form : List (GoString × List GoString)) (picks : List GoString)
    (hp : formValues form (ascii "pick") = some picks) (file : Upload) :
    Annotate db (Request.mk (ascii "POST") (ascii "/annotate/" ++ image) (some form) file) =
      if db.writable image then
        ⟨Response.redirect (ascii "/view/" ++ image) 303,
          { db with files := fun k =>
              if k = image then some (91 :: marshalElems picks ++ [93]) else db.files k },
          [DbOp.write image (91 :: marshalElems picks ++ [93])]⟩
      else
        ⟨Response.error "Sorry, something broke!" 500, db,
          [DbOp.write image (91 :: marshalElems picks ++ [93])]⟩ := by
  simp only [Annotate, annotate_image, length_ne_zero_of_ne_nil h, if_false, get_ne_post, hp,
    jsonMarshal, Diskv.Write, if_true]
  cases hw : db.writable image <;> simp

/-- The handler `ViewImage` for a non-empty image. -/
theorem view_get (db : Diskv) (image : GoString) (h : image ≠ []) (method : GoString)
    (form : Option (List (GoString × List GoString))) (file : Upload) :
    ViewImage db (Request.mk method (ascii "/view/" ++ image) form file) =
      match db.Read image with
      | some read =>
        match jsonUnmarshal read with
        | none => ⟨Response.error "Sorry, something broke!" 500, db, [DbOp.read image]⟩
        | some picks =>
          match viewLoop picks [] with
          | none => ⟨Response.panic, db, [DbOp.read image]⟩
          | some coords =>
            ⟨Response.viewPage { Image := image, Coordinates := coords, Annotated := true }, db,
              [DbOp.read image]⟩
      | none =>
        ⟨Response.viewPage { Image := image, Coordinates := [], Annotated := false }, db,
          [DbOp.read image]⟩ := by
  simp only [ViewImage, view_image, length_ne_zero_of_ne_nil h, if_false]

/-! ## Lemmas on strconv.Atoi -/

theorem digitsValue_le (s : GoString) (n v : Nat) (h : digitsValue s n = some v) : n ≤ v := by
  induction s generalizing n with
  | nil => simp [digitsValue] at h; omega
  | cons c rest ih =>
    by_cases hc : 48 ≤ c ∧ c ≤ 57
    · simp only [digitsValue, hc, and_self, if_true] at h
      have := ih _ h
      omega
    · simp [digitsValue, hc] at h

theorem digitsValue_bytes (s : GoString) (n v : Nat) (h : digitsValue s n = some v) :
    ∀ c ∈ s, 48 ≤ c ∧ c ≤ 57 := by
  induction s generalizing n with
  | nil => simp
  | cons c rest ih =>
    by_cases hc : 48 ≤ c ∧ c ≤ 57
    · simp only [digitsValue, hc, and_self, if_true] at h
      intro d hd
      rcases List.mem_cons.mp hd with e | m
      · subst e; exact hc
      · exact ih _ h d m
    · simp [digitsValue, hc] at h

theorem parseUintLoop_digits (s : GoString) (n v : Nat) (h : digitsValue s n = some v)
    (hv : v ≤ maxUint64) : parseUintLoop 10 s n = (v, none) := by
  induction s generalizing n with
  | nil => simp [digitsValue] at h; simp [parseUintLoop, h]
  | cons c rest ih =>
    by_cases hc : 48 ≤ c ∧ c ≤ 57
    · simp only [digitsValue, hc, and_self, if_true] at h
      have hle := digitsValue_le _ _ _ h
      have hd : digitVal c = some (c - 48) := by simp [digitVal, hc]
      simp only [maxUint64] at hv
      have h1 : ¬ (c - 48 ≥ 10) := by omega
      have h2 : ¬ (n ≥ maxUint64 / 10 + 1) := by simp only [maxUint64]; omega
      have h3 : ¬ (n * 10 + (c - 48) > maxUint64) := by simp only [maxUint64]; omega
      simp only [parseUintLoop, hd, h1, h2, h3, if_false]
      exact ih _ h
    · simp [digitsValue, hc] at h

theorem parseUint_digits (s : GoString) (v : Nat) (hs : s ≠ []) (h : digitsValue s 0 = some v)
    (hv : v ≤ maxUint64) : ParseUint s 10 = (v, none) := by
  have hl : ¬ s.length < 1 := by
    cases s with
    | nil => exact absurd rfl hs
    | cons c rest => simp
  simp only [ParseUint, hl, if_false]
  exact parseUintLoop_digits s 0 v h hv

theorem decimalValue_cases (c : Nat) (rest : GoString) (x : Int)
    (h : decimalValue (c :: rest) = some x) :
    (c = 45 ∧ rest ≠ [] ∧ ∃ n : Nat, digitsValue rest 0 = some n ∧ x = -(n : Int)) ∨
    (c = 43 ∧ rest ≠ [] ∧ ∃ n : Nat, digitsValue rest 0 = some n ∧ x = (n : Int)) ∨
    (c ≠ 45 ∧ c ≠ 43 ∧ ∃ n : Nat, digitsValue (c :: rest) 0 = some n ∧ x = (n : Int)) := by
  simp only [decimalValue] at h
  by_cases hm : c = 45
  · left
    rw [if_pos hm] at h
    by_cases hr : rest = []
    · simp [hr] at h
    · rw [if_neg hr] at h
      cases hd : digitsValue rest 0 with
      | none => simp [hd] at h
      | some n =>
        rw [hd] at h
        simp only [Option.map_some', Option.some.injEq] at h
        exact ⟨hm, hr, n, rfl, h.symm⟩
  · rw [if_neg hm] at h
    by_cases hpl : c = 43
    · right; left
      rw [if_pos hpl] at h
      by_cases hr : rest = []
      · simp [hr] at h
      · rw [if_neg hr] at h
        cases hd : digitsValue rest 0 with
        | none => simp [hd] at h
        | some n =>
          rw [hd] at h
          simp only [Option.map_some', Option.some.injEq] at h
          exact ⟨hpl, hr, n, rfl, h.symm⟩
    · right; right
      rw [if_neg hpl] at h
      cases hd : digitsValue (c :: rest) 0 with
      | none => simp [hd] at h
      | some n =>
        rw [hd] at h
        simp only [Option.map_some', Option.some.injEq] at h
        exact ⟨hm, hpl, n, rfl, h.symm⟩

/-- The call `Atoi` on a decimal form of an integer that an `int` holds gives
that integer and no error. -/
theorem atoi_decimal (s : GoString) (x : Int) (h : decimalValue s = some x)
    (hlo : -9223372036854775808 ≤ x) (hhi : x ≤ 9223372036854775807) :
    Atoi s = (x, none) := by
  cases s with
  | nil => simp [decimalValue] at h
  | cons c rest =>
    rcases decimalValue_cases c rest x h with ⟨hc, hr, n, hd, hx⟩ | ⟨hc, hr, n, hd, hx⟩ |
      ⟨hm, hpl, n, hd, hx⟩
    · subst hc
      have hn : n ≤ maxUint64 := by simp only [maxUint64]; omega
      have hp := parseUint_digits rest n hr hd hn
      have h4 : ¬ n > 9223372036854775808 := by omega
      simp [Atoi, ParseInt, hp, h4, hx]
    · subst hc
      have hn : n ≤ maxUint64 := by simp only [maxUint64]; omega
      have hp := parseUint_digits rest n hr hd hn
      have h4 : ¬ 9223372036854775808 ≤ n := by omega
      simp [Atoi, ParseInt, hp, h4, hx]
    · have hn : n ≤ maxUint64 := by simp only [maxUint64]; omega
      have hp := parseUint_digits (c :: rest) n (by simp) hd hn
      have h4 : ¬ 9223372036854775808 ≤ n := by omega
      simp [Atoi, ParseInt, hm, hpl, hp, h4, hx]

theorem decimalValue_bytes (s : GoString) (x : Int) (h : decimalValue s = some x) :
    ∀ c ∈ s, (48 ≤ c ∧ c ≤ 57) ∨ c = 43 ∨ c = 45 := by
  cases s with
  | nil => simp
  | cons c rest =>
    intro d hd
    rcases decimalValue_cases c rest x h with ⟨hc, _, n, hn, _⟩ | ⟨hc, _, n, hn, _⟩ |
      ⟨_, _, n, hn, _⟩
    · rcases List.mem_cons.mp hd with e | m
      · subst e; omega
      · exact Or.inl (digitsValue_bytes rest 0 n hn d m)
    · rcases List.mem_cons.mp hd with e | m
      · subst e; omega
      · exact Or.inl (digitsValue_bytes rest 0 n hn d m)
    · exact Or.inl (digitsValue_bytes (c :: rest) 0 n hn d hd)

/-- A syntax error of `Atoi` comes with the value 0. -/
theorem atoi_syntax_error (f : GoString) (h : (Atoi f).2 = some NumError.ErrSyntax) :
    (Atoi f).1 = 0 := by
  cases f with
  | nil => simp [Atoi, ParseInt]
  | cons c rest =>
    simp only [Atoi, ParseInt] at h ⊢
    split_ifs at h ⊢ <;> simp_all

/-- A range error of `Atoi` comes with the largest or the smallest `int`. -/
theorem atoi_range_error (f : GoString) (h : (Atoi f).2 = some NumError.ErrRange) :
    (Atoi f).1 = 9223372036854775807 ∨ (Atoi f).1 = -9223372036854775808 := by
  cases f with
  | nil => simp [Atoi, ParseInt] at h
  | cons c rest =>
    simp only [Atoi, ParseInt] at h ⊢
    split_ifs at h ⊢ <;> simp_all

theorem wrapInt_of_range (z : Int) (hlo : -9223372036854775808 ≤ z)
    (hhi : z ≤ 9223372036854775807) : wrapInt z = z := by
  unfold wrapInt
  omega

/-! ## Lemmas on encoding/json -/

theorem htmlSafe_bounds {c : Nat} (h : htmlSafe c = true) :
    32 ≤ c ∧ c < 128 ∧ c ≠ 34 ∧ c ≠ 92 ∧ c ≠ 60 ∧ c ≠ 62 ∧ c ≠ 38 := by
  simpa [htmlSafe] using h

theorem quoteBody_safe (s : GoString) (h : ∀ c ∈ s, htmlSafe c = true) :
    quoteBody true 0 s = s := by
  induction s with
  | nil => rfl
  | cons c rest ih =>
    have hc := h c (by simp)
    have hb := htmlSafe_bounds hc
    have hr : ∀ d ∈ rest, htmlSafe d = true := fun d m => h d (List.mem_cons_of_mem _ m)
    simp [quoteBody, hb.2.1, hc, ih hr]

theorem unquote_plain (c : Nat) (rest : GoString) (h1 : c ≠ 92) (h2 : ¬ (c = 34 ∨ c < 32))
    (h3 : c < 128) : unquote true 0 (c :: rest) = (unquote true 0 rest).map (fun t => c :: t) := by
  conv => lhs; unfold unquote
  simp only [h1, h2, h3, if_false, if_true]

theorem unquote_safe (s : GoString) (h : ∀ c ∈ s, htmlSafe c = true) :
    unquote true 0 s = some s := by
  induction s with
  | nil => rfl
  | cons c rest ih =>
    have hb := htmlSafe_bounds (h c (by simp))
    have hr : ∀ d ∈ rest, htmlSafe d = true := fun d m => h d (List.mem_cons_of_mem _ m)
    have h1 : ¬ (c = 34 ∨ c < 32) := by omega
    rw [unquote_plain c rest hb.2.2.2.1 h1 hb.2.1, ih hr]
    rfl

theorem scan_open (rest : GoString) :
    scan ScanMode.outside (91 :: rest) =
      (scan ScanMode.outside rest).map (fun ts => Token.arrOpen :: ts) := by
  conv => lhs; unfold scan
  simp [isSpace]

theorem scan_close (rest : GoString) :
    scan ScanMode.outside (93 :: rest) =
      (scan ScanMode.outside rest).map (fun ts => Token.arrClose :: ts) := by
  conv => lhs; unfold scan
  simp [isSpace]

theorem scan_comma (rest : GoString) :
    scan ScanMode.outside (44 :: rest) =
      (scan ScanMode.outside rest).map (fun ts => Token.comma :: ts) := by
  conv => lhs; unfold scan
  simp [isSpace]

theorem scan_quote_mark (rest : GoString) :
    scan ScanMode.outside (34 :: rest) = scan (ScanMode.inString []) rest := by
  conv => lhs; unfold scan
  simp [isSpace]

theorem scan_inString_safe (s raw rest : GoString) (h : ∀ c ∈ s, htmlSafe c = true) :
    scan (ScanMode.inString raw) (s ++ 34 :: rest) =
      (scan ScanMode.outside rest).map (fun ts => Token.str (raw ++ s) :: ts) := by
  induction s generalizing raw with
  | nil => simp [scan]
  | cons c cs ih =>
    have hb := htmlSafe_bounds (h c (by simp))
    have hr : ∀ d ∈ cs, htmlSafe d = true := fun d m => h d (List.mem_cons_of_mem _ m)
    have h1 : ¬ c < 32 := by omega
    simp [scan, hb.2.2.1, hb.2.2.2.1, h1, ih _ hr]

theorem scan_quote_safe (s rest : GoString) (h : ∀ c ∈ s, htmlSafe c = true) :
    scan ScanMode.outside (quote s ++ rest) =
      (scan ScanMode.outside rest).map (fun ts => Token.str s :: ts) := by
  have := scan_inString_safe s [] rest h
  simp only [List.nil_append] at this
  have e : quote s ++ rest = 34 :: (s ++ 34 :: rest) := by
    simp [quote, quoteBody_safe s h]
  rw [e, scan_quote_mark, this]

/-- The tokens of the elements of an array of strings and of its closing bracket. -/
theorem scan_marshalElems_safe (p : GoString) (ps : List GoString)
    (h : ∀ q ∈ p :: ps, ∀ c ∈ q, htmlSafe c = true) :
    ∃ ts, scan ScanMode.outside (marshalElems (p :: ps) ++ [93]) = some (Token.str p :: ts) ∧
      parseElems (Token.str p :: ts) = some (p :: ps) := by
  induction ps generalizing p with
  | nil =>
    refine ⟨[Token.arrClose], ?_, ?_⟩
    · rw [marshalElems, scan_quote_safe p [93] (h p (by simp)), scan_close]
      simp [scan]
    · simp [parseElems, tokenValue, unquote_safe p (h p (by simp))]
  | cons q qs ih =>
    obtain ⟨ts, h1, h2⟩ := ih q (fun r hr => h r (List.mem_cons_of_mem _ hr))
    refine ⟨Token.comma :: Token.str q :: ts, ?_, ?_⟩
    · have e : marshalElems (p :: q :: qs) ++ [93] =
          quote p ++ (44 :: (marshalElems (q :: qs) ++ [93])) := by
        simp [marshalElems]
      rw [e, scan_quote_safe p _ (h p (by simp)), scan_comma, h1]
      rfl
    · have hne : Token.comma ≠ Token.arrClose := by decide
      simp [parseElems, tokenValue, unquote_safe p (h p (by simp)), hne, h2]

/-- Decoding the encoding of a list of strings made of bytes that are copied
unchanged gives the list back. -/
theorem unmarshal_marshal_safe (picks : List GoString)
    (h : ∀ q ∈ picks, ∀ c ∈ q, htmlSafe c = true) :
    jsonUnmarshal (91 :: marshalElems picks ++ [93]) = some picks := by
  cases picks with
  | nil => decide
  | cons p ps =>
    obtain ⟨ts, h1, h2⟩ := scan_marshalElems_safe p ps h
    have e : scan ScanMode.outside (91 :: marshalElems (p :: ps) ++ [93]) =
        some (Token.arrOpen :: Token.str p :: ts) := by
      have : (91 :: marshalElems (p :: ps) ++ [93]) = 91 :: (marshalElems (p :: ps) ++ [93]) := rfl
      rw [this, scan_open, h1]
      rfl
    simp only [jsonUnmarshal, e]
    exact h2

/-! ## Lemmas on strings.Split and the loop of `ViewImage` -/

theorem split_without_sep (p : GoString) (sep : Nat) (h : sep ∉ p) : Split p sep = [p] := by
  induction p with
  | nil => rfl
  | cons c cs ih =>
    have hc : c ≠ sep := fun e => h (by simp [e])
    have hcs : sep ∉ cs := fun m => h (List.mem_cons_of_mem _ m)
    simp [Split, hc, ih hcs]

theorem split_ne_nil (p : GoString) (sep : Nat) : Split p sep ≠ [] := by
  cases p with
  | nil => simp [Split]
  | cons c cs =>
    by_cases hc : c = sep
    · simp [Split, hc]
    · cases h : Split cs sep <;> simp [Split, hc, h]

theorem split_at_sep (a b : GoString) (sep : Nat) (h : sep ∉ a) :
    Split (a ++ sep :: b) sep = a :: Split b sep := by
  induction a with
  | nil => simp [Split]
  | cons c cs ih =>
    have hc : c ≠ sep := fun e => h (by simp [e])
    have hcs : sep ∉ cs := fun m => h (List.mem_cons_of_mem _ m)
    simp [Split, hc, ih hcs]

theorem viewLoop_panic (picks : List GoString) (p : GoString) (hp : p ∈ picks)
    (hnone : pickCoordinate p = none) (coords : List Coordinate) :
    viewLoop picks coords = none := by
  induction picks generalizing coords with
  | nil => simp at hp
  | cons q qs ih =>
    rcases List.mem_cons.mp hp with e | m
    · subst e
      simp [viewLoop, hnone]
    · cases hq : pickCoordinate q with
      | none => simp [viewLoop, hq]
      | some c => simp [viewLoop, hq, ih m]

theorem pickCoordinate_without_comma (p : GoString) (h : 44 ∉ p) : pickCoordinate p = none := by
  simp [pickCoordinate, split_without_sep p 44 h]

theorem split_with_sep (p : GoString) (sep : Nat) (h : sep ∈ p) :
    ∃ f0 f1 rest, Split p sep = f0 :: f1 :: rest := by
  induction p with
  | nil => simp at h
  | cons c cs ih =>
    by_cases hc : c = sep
    · cases hs : Split cs sep with
      | nil => exact absurd hs (split_ne_nil cs sep)
      | cons f fs => exact ⟨[], f, fs, by simp [Split, hc, hs]⟩
    · have hm : sep ∈ cs := by
        rcases List.mem_cons.mp h with e | m
        · exact absurd e.symm hc
        · exact m
      obtain ⟨f0, f1, rest, e⟩ := ih hm
      exact ⟨c :: f0, f1, rest, by simp [Split, hc, e]⟩

theorem pickCoordinate_with_comma (p : GoString) (h : 44 ∈ p) :
    pickCoordinate p =
      some { X := wrapInt ((Atoi ((Split p 44).getD 0 [])).1 - 50),
             Y := wrapInt ((Atoi ((Split p 44).getD 1 [])).1 - 50) } := by
  obtain ⟨f0, f1, rest, e⟩ := split_with_sep p 44 h
  simp [pickCoordinate, e]

theorem viewLoop_map (g : GoString → Coordinate) (picks : List GoString)
    (h : ∀ p ∈ picks, pickCoordinate p = some (g p)) (coords : List Coordinate) :
    viewLoop picks coords = some (coords ++ picks.map g) := by
  induction picks generalizing coords with
  | nil => simp [viewLoop]
  | cons p ps ih =>
    have hp := h p (by simp)
    have hps : ∀ q ∈ ps, pickCoordinate q = some (g q) :=
      fun q m => h q (List.mem_cons_of_mem _ m)
    simp [viewLoop, hp, ih hps]

theorem decimalValue_no_comma (s : GoString) (x : Int) (h : decimalValue s = some x) :
    44 ∉ s := by
  intro m
  have := decimalValue_bytes s x h 44 m
  omega

theorem decimalValue_safe (s : GoString) (x : Int) (h : decimalValue s = some x) :
    ∀ c ∈ s, htmlSafe c = true := by
  intro c m
  have := decimalValue_bytes s x h c m
  simp only [htmlSafe, decide_eq_true_eq]
  omega

theorem isPick_safe (p : GoString) (x y : Int) (h : IsPick p x y) :
    ∀ c ∈ p, htmlSafe c = true := by
  obtain ⟨sx, sy, e, hx, hy⟩ := h
  subst e
  intro c m
  rcases List.mem_append.mp m with m1 | m2
  · exact decimalValue_safe sx x hx c m1
  · rcases List.mem_cons.mp m2 with e | m3
    · subst e; decide
    · exact decimalValue_safe sy y hy c m3

theorem pickCoordinate_isPick (p : GoString) (x y : Int) (h : IsPick p x y)
    (hx : InIntRange x) (hy : InIntRange y) :
    pickCoordinate p = some { X := x - 50, Y := y - 50 } := by
  obtain ⟨sx, sy, e, dx, dy⟩ := h
  subst e
  have e1 : Split (sx ++ 44 :: sy) 44 = [sx, sy] := by
    rw [split_at_sep sx sy 44 (decimalValue_no_comma sx x dx),
      split_without_sep sy 44 (decimalValue_no_comma sy y dy)]
  obtain ⟨hx1, hx2⟩ := hx
  obtain ⟨hy1, hy2⟩ := hy
  have ax := atoi_decimal sx x dx (by omega) hx2
  have ay := atoi_decimal sy y dy (by omega) hy2
  have wx := wrapInt_of_range (x - 50) (by omega) (by omega)
  have wy := wrapInt_of_range (y - 50) (by omega) (by omega)
  simp [pickCoordinate, e1, ax, ay, wx, wy]

theorem viewLoop_isPick (picks : List GoString) (xy : List (Int × Int))
    (h : List.Forall₂ (fun p v => IsPick p v.1 v.2 ∧ InIntRange v.1 ∧ InIntRange v.2) picks xy)
    (coords : List Coordinate) :
    viewLoop picks coords
      = some (coords ++ xy.map (fun v => { X := v.1 - 50, Y := v.2 - 50 })) := by
  induction h generalizing coords with
  | nil => simp [viewLoop]
  | cons hpv _ ih =>
    simp [viewLoop, pickCoordinate_isPick _ _ _ hpv.1 hpv.2.1 hpv.2.2, ih]

theorem forall₂_safe (picks : List GoString) (xy : List (Int × Int))
    (h : List.Forall₂ (fun p v => IsPick p v.1 v.2 ∧ InIntRange v.1 ∧ InIntRange v.2) picks xy) :
    ∀ q ∈ picks, ∀ c ∈ q, htmlSafe c = true := by
  induction h with
  | nil => simp
  | cons hpv _ ih =>
    intro q hq
    rcases List.mem_cons.mp hq with e | m
    · subst e; exact isPick_safe _ _ _ hpv.1
    · exact ih q m

/-! ## The identifier of an image (C1) -/

theorem hexDigit_isLowerHex (n : Nat) (h : n < 16) : isLowerHex (hexDigit n) = true := by
  unfold isLowerHex hexDigit
  split_ifs <;> simp <;> omega

theorem sprintfHex_length (s : GoString) : (sprintfHex s).length = 2 * s.length := by
  induction s with
  | nil => rfl
  | cons b rest ih => simp [sprintfHex, ih]; omega

theorem sprintfHex_isLowerHex (s : GoString) : ∀ c ∈ sprintfHex s, isLowerHex c = true := by
  induction s with
  | nil => simp [sprintfHex]
  | cons b rest ih =>
    intro c hc
    simp only [sprintfHex, List.mem_cons] at hc
    rcases hc with e | e | m
    · subst e; exact hexDigit_isLowerHex _ (Nat.mod_lt _ (by decide))
    · subst e; exact hexDigit_isLowerHex _ (Nat.mod_lt _ (by decide))
    · exact ih c m

theorem sprintfHex_take (s : GoString) (n : Nat) :
    (sprintfHex s).take (2 * n) = sprintfHex (s.take n) := by
  induction s generalizing n with
  | nil => simp [sprintfHex]
  | cons b rest ih =>
    cases n with
    | zero => simp [sprintfHex]
    | succ k =>
      have e : 2 * (k + 1) = (2 * k + 1) + 1 := by omega
      simp only [sprintfHex, e, List.take_succ_cons, ih k]

theorem sha1Sum_length (msg : List Nat) : (sha1Sum msg).length = 20 := by
  simp [sha1Sum, be32]

/-- C1, as the code has it: for every payload `P` the identifier `fileSHA(P)`
is 16 lowercase hexadecimal characters, the first 16 characters of the
hexadecimal form of `SHA1(P)` (its first 8 bytes, 64 bits). -/
theorem fileSHA_sixteen_hex (P : List Nat) :
    (fileSHA P).length = 16 ∧ (∀ c ∈ fileSHA P, isLowerHex c = true) ∧
    fileSHA P = (sprintfHex (sha1Sum P)).take 16 := by
  refine ⟨?_, sprintfHex_isLowerHex _, ?_⟩
  · simp [fileSHA, sprintfHex_length, sha1Sum_length]
  · exact (sprintfHex_take (sha1Sum P) 8).symm

/-- C1 fails at the empty payload: its identifier is `da39a3ee5e6b4b0d`, which
is neither 8 characters long nor the first 8 characters of the hexadecimal
form of the digest. -/
theorem fileSHA_empty_not_eight_hex :
    fileSHA [] = ascii "da39a3ee5e6b4b0d" ∧ (fileSHA []).length ≠ 8 ∧
    fileSHA [] ≠ (sprintfHex (sha1Sum [])).take 8 := by
  decide

/-! ## The claims on the handlers -/

/-- C7: whatever the method, the form and the store, a request whose path is
exactly `/annotate/` is answered by `Annotate` with status 400, and one whose
path is exactly `/view/` is answered by `ViewImage` with status 400; in both
cases the store is left as it was and no access to it is made. -/
theorem empty_image_bad_request (db : Diskv) (method : GoString)
    (form : Option (List (GoString × List GoString))) (file : Upload) :
    Annotate db (Request.mk method (ascii "/annotate/") form file)
        = ⟨Response.error "No image specified!" 400, db, []⟩ ∧
    ViewImage db (Request.mk method (ascii "/view/") form file)
        = ⟨Response.error "No image specified!" 400, db, []⟩ := by
  constructor
  · have h : sliceFrom (ascii "/annotate/") (ascii "/annotate/").length = some [] := by decide
    simp only [Annotate, h, List.length_nil, if_true]
  · have h : sliceFrom (ascii "/view/") (ascii "/view/").length = some [] := by decide
    simp only [ViewImage, h, List.length_nil, if_true]

/-- C4: for a non-empty image for which the read of the store returns an
error, `ViewImage` executes the view template with `Annotated = false` and an
empty coordinate list (no error status), reading the store once and leaving
it as it was. -/
theorem view_without_record (db : Diskv) (image : GoString) (method : GoString)
    (form : Option (List (GoString × List GoString))) (file : Upload)
    (himage : image ≠ []) (hnone : db.Read image = none) :
    ViewImage db (Request.mk method (ascii "/view/" ++ image) form file) =
      ⟨Response.viewPage { Image := image, Coordinates := [], Annotated := false }, db,
        [DbOp.read image]⟩ := by
  rw [view_get db image himage, hnone]

/-- C4, at the image `abc` of an empty store. -/
theorem view_without_record_witness :
    ViewImage ⟨fun _ => none, fun _ => true⟩
        (Request.mk (ascii "GET") (ascii "/view/" ++ ascii "abc") none Upload.missing) =
      ⟨Response.viewPage { Image := ascii "abc", Coordinates := [], Annotated := false },
        ⟨fun _ => none, fun _ => true⟩, [DbOp.read (ascii "abc")]⟩ :=
  view_without_record ⟨fun _ => none, fun _ => true⟩ (ascii "abc") (ascii "GET") none
    Upload.missing (by decide) rfl

/-- C6: for a non-empty image and any store, a POST to `/annotate/{image}` whose
parsed form has no field `pick` is answered 400 "Bad form!", and the store is
left as it was (no access to it is made). -/
theorem annotate_post_without_pick (db : Diskv) (image : GoString)
    (form : List (GoString × List GoString)) (file : Upload)
    (himage : image ≠ []) (hpick : formValues form (ascii "pick") = none) :
    Annotate db (Request.mk (ascii "POST") (ascii "/annotate/" ++ image) (some form) file) =
      ⟨Response.error "Bad form!" 400, db, []⟩ := by
  simp only [Annotate, annotate_image, length_ne_zero_of_ne_nil himage, if_false, get_ne_post,
    hpick, if_true]

/-- C6, at a form whose only field is `other`. -/
theorem annotate_post_without_pick_witness :
    Annotate ⟨fun _ => none, fun _ => true⟩
        (Request.mk (ascii "POST") (ascii "/annotate/" ++ ascii "abc") (some [(ascii "other", [ascii "1,2"])]) Upload.missing) =
      ⟨Response.error "Bad form!" 400, ⟨fun _ => none, fun _ => true⟩, []⟩ :=
  annotate_post_without_pick ⟨fun _ => none, fun _ => true⟩ (ascii "abc")
    [(ascii "other", [ascii "1,2"])] Upload.missing (by decide) (by decide)

/-- C3: for a non-empty image without a record in the store, a GET of
`/annotate/{image}` executes the annotate template (it is no redirect); and
once a POST to `/annotate/{image}` has succeeded (answered with the redirect
that follows the write), a GET of `/annotate/{image}` is answered with a 303
redirect to `/view/{image}`. -/
theorem annotate_get_before_and_after_post (db : Diskv) (image : GoString)
    (form gform : Option (List (GoString × List GoString))) (file gfile : Upload)
    (himage : image ≠ []) (hnone : db.Read image = none)
    (hpost : (Annotate db (Request.mk (ascii "POST") (ascii "/annotate/" ++ image) form file)).resp
              = Response.redirect (ascii "/view/" ++ image) 303) :
    (Annotate db (Request.mk (ascii "GET") (ascii "/annotate/" ++ image) gform gfile)).resp
        = Response.annotatePage image ∧
    (Annotate
        (Annotate db (Request.mk (ascii "POST") (ascii "/annotate/" ++ image) form file)).db
        (Request.mk (ascii "GET") (ascii "/annotate/" ++ image) gform gfile)).resp
        = Response.redirect (ascii "/view/" ++ image) 303 := by
  constructor
  · rw [annotate_get db image himage, hnone]
  · cases form with
    | none =>
      simp [Annotate, annotate_image, length_ne_zero_of_ne_nil himage, get_ne_post] at hpost
    | some f =>
      cases hp : formValues f (ascii "pick") with
      | none =>
        simp [Annotate, annotate_image, length_ne_zero_of_ne_nil himage, get_ne_post, hp]
          at hpost
      | some picks =>
        rw [annotate_post db image himage f picks hp] at hpost ⊢
        cases hw : db.writable image with
        | false => simp [hw] at hpost
        | true =>
          simp only [if_true]
          rw [annotate_get _ image himage]
          simp [Diskv.Read]

/-- C3, at the image `abc` of an empty store and the picks `60,70` and `40,30`. -/
theorem annotate_get_before_and_after_post_witness :
    (Annotate ⟨fun _ => none, fun _ => true⟩
        (Request.mk (ascii "GET") (ascii "/annotate/" ++ ascii "abc") none Upload.missing)).resp
        = Response.annotatePage (ascii "abc") ∧
    (Annotate
        (Annotate ⟨fun _ => none, fun _ => true⟩
          (Request.mk (ascii "POST") (ascii "/annotate/" ++ ascii "abc")
            (some [(ascii "pick", [ascii "60,70", ascii "40,30"])]) Upload.missing)).db
        (Request.mk (ascii "GET") (ascii "/annotate/" ++ ascii "abc") none Upload.missing)).resp
        = Response.redirect (ascii "/view/" ++ ascii "abc") 303 :=
  annotate_get_before_and_after_post ⟨fun _ => none, fun _ => true⟩ (ascii "abc")
    (some [(ascii "pick", [ascii "60,70", ascii "40,30"])]) none Upload.missing Upload.missing
    (by decide) rfl (by decide)

/-- C10: for a non-empty image whose record decodes to a list with a pick that
has no comma, the split of that pick has a first field and no second one, and
`ViewImage` panics: no template is executed and there is no coordinate list. -/
theorem view_pick_without_comma (db : Diskv) (image method : GoString)
    (form : Option (List (GoString × List GoString))) (file : Upload)
    (read : GoString) (picks : List GoString) (p : GoString)
    (himage : image ≠ []) (hread : db.Read image = some read)
    (hpicks : jsonUnmarshal read = some picks) (hp : p ∈ picks) (hcomma : 44 ∉ p) :
    (Split p 44).get? 0 = some p ∧ (Split p 44).get? 1 = none ∧
    ViewImage db (Request.mk method (ascii "/view/" ++ image) form file) =
      ⟨Response.panic, db, [DbOp.read image]⟩ := by
  refine ⟨by simp [split_without_sep p 44 hcomma], by simp [split_without_sep p 44 hcomma], ?_⟩
  rw [view_get db image himage, hread]
  simp only [hpicks, viewLoop_panic picks p hp (pickCoordinate_without_comma p hcomma)]

/-- C10, at the record `["60,70",""]`, whose second pick is the empty string. -/
theorem view_pick_without_comma_witness :
    (Split [] 44).get? 0 = some [] ∧ (Split [] 44).get? 1 = none ∧
    ViewImage ⟨fun _ => some (ascii "[\"60,70\",\"\"]"), fun _ => true⟩
        (Request.mk (ascii "GET") (ascii "/view/" ++ ascii "abc") none Upload.missing) =
      ⟨Response.panic, ⟨fun _ => some (ascii "[\"60,70\",\"\"]"), fun _ => true⟩,
        [DbOp.read (ascii "abc")]⟩ :=
  view_pick_without_comma ⟨fun _ => some (ascii "[\"60,70\",\"\"]"), fun _ => true⟩
    (ascii "abc") (ascii "GET") none Upload.missing (ascii "[\"60,70\",\"\"]")
    [ascii "60,70", []] [] (by decide) rfl (by decide) (by decide) (by decide)

/-- C8: when storing the payload `P` succeeds (the upload is answered with the
redirect to `/view/` followed by the identifier), storing `P` again is
answered with the same redirect, so with the same identifier and without
error, it leaves the image directory as the first store left it, and the file
named by the identifier holds `P`. -/
theorem post_image_twice (dir : ImageDir) (P : GoString) (m1 p1 m2 p2 : GoString)
    (f1 f2 : Option (List (GoString × List GoString)))
    (hfirst : (PostImage dir (Request.mk m1 p1 f1 (Upload.content P))).1
                = Response.redirect (ascii "/view/" ++ fileSHA P) 303) :
    PostImage (PostImage dir (Request.mk m1 p1 f1 (Upload.content P))).2
        (Request.mk m2 p2 f2 (Upload.content P))
      = (Response.redirect (ascii "/view/" ++ fileSHA P) 303,
          (PostImage dir (Request.mk m1 p1 f1 (Upload.content P))).2) ∧
    (PostImage dir (Request.mk m1 p1 f1 (Upload.content P))).2.files (fileSHA P) = some P := by
  cases hw : dir.writable (fileSHA P) with
  | false => simp [PostImage, ImageDir.WriteFile, hw] at hfirst
  | true =>
    simp only [PostImage, ImageDir.WriteFile, hw, if_true]
    refine ⟨?_, by simp⟩
    congr 1
    congr 1
    funext k
    by_cases hk : k = fileSHA P <;> simp [hk]

/-- C8, at the empty payload and an empty image directory. -/
theorem post_image_twice_witness :
    PostImage (PostImage ⟨fun _ => none, fun _ => true⟩
          (Request.mk (ascii "POST") (ascii "/post_images") none (Upload.content []))).2
        (Request.mk (ascii "POST") (ascii "/post_images") none (Upload.content []))
      = (Response.redirect (ascii "/view/" ++ fileSHA []) 303,
          (PostImage ⟨fun _ => none, fun _ => true⟩
            (Request.mk (ascii "POST") (ascii "/post_images") none (Upload.content []))).2) ∧
    (PostImage ⟨fun _ => none, fun _ => true⟩
        (Request.mk (ascii "POST") (ascii "/post_images") none (Upload.content []))).2.files
      (fileSHA []) = some [] :=
  post_image_twice ⟨fun _ => none, fun _ => true⟩ [] (ascii "POST") (ascii "/post_images")
    (ascii "POST") (ascii "/post_images") none none rfl

/-- C9: for a non-empty image that has a record, in a store that lets the file
of the image be written, a POST to `/annotate/{image}` with the picks `B` is
answered with a 303 redirect to `/view/{image}`; afterwards the record is the
encoding of `B` alone, every other record is as before, and the view of the
image is the one that the same POST gives on any other store, whatever that
store held for the image. -/
theorem annotate_post_replaces (db : Diskv) (image : GoString)
    (form : List (GoString × List GoString)) (file : Upload) (old : GoString)
    (B : List GoString) (vmethod : GoString)
    (vform : Option (List (GoString × List GoString))) (vfile : Upload)
    (himage : image ≠ []) (_hold : db.Read image = some old)
    (hB : formValues form (ascii "pick") = some B) (hw : db.writable image = true) :
    (Annotate db (Request.mk (ascii "POST") (ascii "/annotate/" ++ image) (some form) file)).resp
        = Response.redirect (ascii "/view/" ++ image) 303 ∧
    jsonMarshal B = Except.ok (91 :: marshalElems B ++ [93]) ∧
    (Annotate db (Request.mk (ascii "POST") (ascii "/annotate/" ++ image) (some form) file)).db.Read
        image = some (91 :: marshalElems B ++ [93]) ∧
    (∀ key, key ≠ image →
      (Annotate db (Request.mk (ascii "POST") (ascii "/annotate/" ++ image) (some form)
          file)).db.Read key = db.Read key) ∧
    (∀ db2 : Diskv, db2.writable image = true →
      (ViewImage
          (Annotate db (Request.mk (ascii "POST") (ascii "/annotate/" ++ image) (some form)
            file)).db
          (Request.mk vmethod (ascii "/view/" ++ image) vform vfile)).resp =
      (ViewImage
          (Annotate db2 (Request.mk (ascii "POST") (ascii "/annotate/" ++ image) (some form)
            file)).db
          (Request.mk vmethod (ascii "/view/" ++ image) vform vfile)).resp) := by
  rw [annotate_post db image himage form B hB file]
  simp only [hw, if_true]
  refine ⟨trivial, rfl, by simp [Diskv.Read], ?_, ?_⟩
  · intro key hkey
    simp [Diskv.Read, hkey]
  · intro db2 hw2
    rw [annotate_post db2 image himage form B hB file]
    simp only [hw2, if_true]
    rw [view_get _ image himage, view_get _ image himage]
    simp only [Diskv.Read, if_true]
    cases h1 : jsonUnmarshal (91 :: marshalElems B ++ [93]) with
    | none => rfl
    | some picks =>
      cases h2 : viewLoop picks [] with
      | none => simp only [h2]
      | some coords => simp only [h2]

/-- C9, at the image `abc`, whose record `["1,2"]` is replaced by the picks
`60,70` and `40,30`. -/
theorem annotate_post_replaces_witness :
    (Annotate ⟨fun _ => some (ascii "[\"1,2\"]"), fun _ => true⟩
        (Request.mk (ascii "POST") (ascii "/annotate/" ++ ascii "abc")
          (some [(ascii "pick", [ascii "60,70", ascii "40,30"])]) Upload.missing)).resp
      = Response.redirect (ascii "/view/" ++ ascii "abc") 303 ∧
    (Annotate ⟨fun _ => some (ascii "[\"1,2\"]"), fun _ => true⟩
        (Request.mk (ascii "POST") (ascii "/annotate/" ++ ascii "abc")
          (some [(ascii "pick", [ascii "60,70", ascii "40,30"])]) Upload.missing)).db.Read
        (ascii "abc") = some (ascii "[\"60,70\",\"40,30\"]") :=
  have h := annotate_post_replaces ⟨fun _ => some (ascii "[\"1,2\"]"), fun _ => true⟩
    (ascii "abc") [(ascii "pick", [ascii "60,70", ascii "40,30"])] Upload.missing
    (ascii "[\"1,2\"]") [ascii "60,70", ascii "40,30"] (ascii "GET") none Upload.missing
    (by decide) rfl (by decide) rfl
  ⟨h.1, h.2.2.1.trans (by decide)⟩

/-! ## The claims on the coordinates -/

/-- C5, as the code has it: when every pick of the record of a non-empty image
has a comma, `ViewImage` raises no error and executes the view template with
one coordinate per pick, made of the first two fields of the pick alone, each
parsed by `Atoi` and reduced by 50; a field whose parse fails with a syntax
error counts as 0 and gives the coordinate -50; a field whose parse fails with
a range error counts as the largest or the smallest `int`; the fields after
the second do not matter. -/
theorem view_pick_parse_failure (db : Diskv) (image method : GoString)
    (form : Option (List (GoString × List GoString))) (file : Upload)
    (read : GoString) (picks : List GoString)
    (himage : image ≠ []) (hread : db.Read image = some read)
    (hpicks : jsonUnmarshal read = some picks) (hcomma : ∀ p ∈ picks, 44 ∈ p) :
    ViewImage db (Request.mk method (ascii "/view/" ++ image) form file) =
      ⟨Response.viewPage
        { Image := image
          Coordinates := picks.map (fun p =>
            { X := wrapInt ((Atoi ((Split p 44).getD 0 [])).1 - 50),
              Y := wrapInt ((Atoi ((Split p 44).getD 1 [])).1 - 50) })
          Annotated := true },
        db, [DbOp.read image]⟩ ∧
    (∀ f, (Atoi f).2 = some NumError.ErrSyntax →
      (Atoi f).1 = 0 ∧ wrapInt ((Atoi f).1 - 50) = -50) ∧
    (∀ f, (Atoi f).2 = some NumError.ErrRange →
      (Atoi f).1 = 9223372036854775807 ∨ (Atoi f).1 = -9223372036854775808) ∧
    (∀ f0 f1 more, 44 ∉ f0 → 44 ∉ f1 →
      pickCoordinate (f0 ++ 44 :: (f1 ++ 44 :: more)) = pickCoordinate (f0 ++ 44 :: f1)) := by
  refine ⟨?_, ?_, atoi_range_error, ?_⟩
  · rw [view_get db image himage, hread]
    simp only [hpicks]
    rw [viewLoop_map _ picks (fun p hp => pickCoordinate_with_comma p (hcomma p hp))]
    simp
  · intro f hf
    have h0 := atoi_syntax_error f hf
    exact ⟨h0, by rw [h0]; decide⟩
  · intro f0 f1 more h0 h1
    have e1 : Split (f0 ++ 44 :: (f1 ++ 44 :: more)) 44 = f0 :: f1 :: Split more 44 := by
      rw [split_at_sep f0 _ 44 h0, split_at_sep f1 _ 44 h1]
    have e2 : Split (f0 ++ 44 :: f1) 44 = [f0, f1] := by
      rw [split_at_sep f0 _ 44 h0, split_without_sep f1 44 h1]
    simp [pickCoordinate, e1, e2]

/-- C5 amended, at the record `["x,7,9"]`: the first field is no number. -/
theorem view_pick_parse_failure_witness :
    ViewImage ⟨fun _ => some (ascii "[\"x,7,9\"]"), fun _ => true⟩
        (Request.mk (ascii "GET") (ascii "/view/" ++ ascii "abc") none Upload.missing) =
      ⟨Response.viewPage
        { Image := ascii "abc"
          Coordinates := [ascii "x,7,9"].map (fun p =>
            { X := wrapInt ((Atoi ((Split p 44).getD 0 [])).1 - 50),
              Y := wrapInt ((Atoi ((Split p 44).getD 1 [])).1 - 50) })
          Annotated := true },
        ⟨fun _ => some (ascii "[\"x,7,9\"]"), fun _ => true⟩, [DbOp.read (ascii "abc")]⟩ ∧
    (∀ f, (Atoi f).2 = some NumError.ErrSyntax →
      (Atoi f).1 = 0 ∧ wrapInt ((Atoi f).1 - 50) = -50) ∧
    (∀ f, (Atoi f).2 = some NumError.ErrRange →
      (Atoi f).1 = 9223372036854775807 ∨ (Atoi f).1 = -9223372036854775808) ∧
    (∀ f0 f1 more, 44 ∉ f0 → 44 ∉ f1 →
      pickCoordinate (f0 ++ 44 :: (f1 ++ 44 :: more)) = pickCoordinate (f0 ++ 44 :: f1)) :=
  view_pick_parse_failure ⟨fun _ => some (ascii "[\"x,7,9\"]"), fun _ => true⟩ (ascii "abc")
    (ascii "GET") none Upload.missing (ascii "[\"x,7,9\"]") [ascii "x,7,9"]
    (by decide) rfl (by decide) (by decide)

/-- C5 fails at the record `["99999999999999999999,0"]`: the pick has a comma,
the parse of its first field fails (with a range error), and the value used
is the largest `int`, not 0, so that the coordinate is 9223372036854775757,
not -50. -/
theorem view_range_error_not_zero :
    jsonUnmarshal (ascii "[\"99999999999999999999,0\"]") = some [ascii "99999999999999999999,0"] ∧
    44 ∈ ascii "99999999999999999999,0" ∧
    (Split (ascii "99999999999999999999,0") 44).get? 0 = some (ascii "99999999999999999999") ∧
    (Atoi (ascii "99999999999999999999")).2 = some NumError.ErrRange ∧
    (Atoi (ascii "99999999999999999999")).1 ≠ 0 ∧
    (ViewImage ⟨fun _ => some (ascii "[\"99999999999999999999,0\"]"), fun _ => true⟩
        (Request.mk (ascii "GET") (ascii "/view/" ++ ascii "abc") none Upload.missing)).resp =
      Response.viewPage
        { Image := ascii "abc", Coordinates := [{ X := 9223372036854775757, Y := -50 }],
          Annotated := true } := by
  decide

/-- C2, as the code has it: for a non-empty image and picks of which each is
`x,y` with `x` and `y` decimal forms of integers from -2^63+50 to 2^63-1, once
the POST to `/annotate/{image}` with these picks has succeeded, `ViewImage`
executes the view template with `Annotated = true` and the coordinates
`{X: x - 50, Y: y - 50}`, one per pick and in the order of the picks. -/
theorem annotate_then_view (db : Diskv) (image : GoString)
    (form : List (GoString × List GoString)) (file : Upload) (picks : List GoString)
    (xy : List (Int × Int)) (vmethod : GoString)
    (vform : Option (List (GoString × List GoString))) (vfile : Upload)
    (himage : image ≠ []) (hform : formValues form (ascii "pick") = some picks)
    (hxy : List.Forall₂ (fun p v => IsPick p v.1 v.2 ∧ InIntRange v.1 ∧ InIntRange v.2)
      picks xy)
    (hpost : (Annotate db (Request.mk (ascii "POST") (ascii "/annotate/" ++ image) (some form)
                file)).resp = Response.redirect (ascii "/view/" ++ image) 303) :
    (ViewImage
        (Annotate db (Request.mk (ascii "POST") (ascii "/annotate/" ++ image) (some form)
          file)).db
        (Request.mk vmethod (ascii "/view/" ++ image) vform vfile)).resp =
      Response.viewPage
        { Image := image
          Coordinates := xy.map (fun v => { X := v.1 - 50, Y := v.2 - 50 })
          Annotated := true } ∧
    (xy.map (fun v => ({ X := v.1 - 50, Y := v.2 - 50 } : Coordinate))).length = picks.length := by
  refine ⟨?_, by simp [hxy.length_eq]⟩
  rw [annotate_post db image himage form picks hform file] at hpost ⊢
  cases hw : db.writable image with
  | false => simp [hw] at hpost
  | true =>
    simp only [if_true]
    rw [view_get _ image himage]
    simp only [Diskv.Read, if_true, unmarshal_marshal_safe picks (forall₂_safe picks xy hxy),
      viewLoop_isPick picks xy hxy, List.nil_append]

/-- C2 amended, at the picks `60,70` and `40,30` of the specification. -/
theorem annotate_then_view_witness :
    (ViewImage
        (Annotate ⟨fun _ => none, fun _ => true⟩
          (Request.mk (ascii "POST") (ascii "/annotate/" ++ ascii "abc")
            (some [(ascii "pick", [ascii "60,70", ascii "40,30"])]) Upload.missing)).db
        (Request.mk (ascii "GET") (ascii "/view/" ++ ascii "abc") none Upload.missing)).resp =
      Response.viewPage
        { Image := ascii "abc"
          Coordinates := [((60 : Int), (70 : Int)), (40, 30)].map
            (fun v => { X := v.1 - 50, Y := v.2 - 50 })
          Annotated := true } ∧
    ([((60 : Int), (70 : Int)), (40, 30)].map
        (fun v => ({ X := v.1 - 50, Y := v.2 - 50 } : Coordinate))).length
      = [ascii "60,70", ascii "40,30"].length :=
  annotate_then_view ⟨fun _ => none, fun _ => true⟩ (ascii "abc")
    [(ascii "pick", [ascii "60,70", ascii "40,30"])] Upload.missing
    [ascii "60,70", ascii "40,30"] [(60, 70), (40, 30)] (ascii "GET") none Upload.missing
    (by decide) (by decide)
    (List.Forall₂.cons
      ⟨⟨ascii "60", ascii "70", by decide, by decide, by decide⟩, by decide, by decide⟩
      (List.Forall₂.cons
        ⟨⟨ascii "40", ascii "30", by decide, by decide, by decide⟩, by decide, by decide⟩
        List.Forall₂.nil))
    (by decide)

/-- C2 fails at the pick `9223372036854775808,50`: both fields are decimal
integers and the POST succeeds, but the coordinate shown is
9223372036854775757, not 9223372036854775808 - 50. -/
theorem annotate_then_view_out_of_range :
    decimalValue (ascii "9223372036854775808") = some 9223372036854775808 ∧
    decimalValue (ascii "50") = some 50 ∧
    (Annotate ⟨fun _ => none, fun _ => true⟩
        (Request.mk (ascii "POST") (ascii "/annotate/" ++ ascii "abc")
          (some [(ascii "pick", [ascii "9223372036854775808,50"])]) Upload.missing)).resp
      = Response.redirect (ascii "/view/" ++ ascii "abc") 303 ∧
    (ViewImage
        (Annotate ⟨fun _ => none, fun _ => true⟩
          (Request.mk (ascii "POST") (ascii "/annotate/" ++ ascii "abc")
            (some [(ascii "pick", [ascii "9223372036854775808,50"])]) Upload.missing)).db
        (Request.mk (ascii "GET") (ascii "/view/" ++ ascii "abc") none Upload.missing)).resp =
      Response.viewPage
        { Image := ascii "abc", Coordinates := [{ X := 9223372036854775757, Y := 0 }],
          Annotated := true } ∧
    (ViewImage
        (Annotate ⟨fun _ => none, fun _ => true⟩
          (Request.mk (ascii "POST") (ascii "/annotate/" ++ ascii "abc")
            (some [(ascii "pick", [ascii "9223372036854775808,50"])]) Upload.missing)).db
        (Request.mk (ascii "GET") (ascii "/view/" ++ ascii "abc") none Upload.missing)).resp ≠
      Response.viewPage
        { Image := ascii "abc"
          Coordinates := [{ X := 9223372036854775808 - 50, Y := 50 - 50 }]
          Annotated := true } := by
  decide

end Selection
